import Mathlib

/-!
Shallow embedding of the demand-normalization core of
`src/demand_normalization.py` (function `process_demand_sheet`, lines
105-227), together with proofs about it.

The spreadsheet I/O, sheet discovery and date-header decoding are adapter
code and are not modelled.  The embedding covers: the supply dictionary
`material_qty_dict` (taken as an association list parameter; the code
builds it only when the DATA sheet and its two required columns exist,
otherwise it is empty), the over-supply decision list
`items_to_keep_original` (step 1, lines 109-139), the consolidation pass
(step 2, lines 141-189), the rounding pass (step 3, lines 191-218), and
the restoration pass (step 4, lines 220-227).

Cell values are modelled as exact rationals (the Python code works on
floats read from the sheet; every operation used is addition, comparison
and ceiling division by 10).
-/

namespace DemandNorm

/-- A period-column cell of the DEMAND sheet as the Python code sees it
after `pd.read_excel`: a numeric value, a missing value (NaN), a piece of
text that Python's `float` parses (the try/except coercion of lines
161-167 and 204-211 then yields that numeric value), or a piece of text
that `float` rejects with ValueError (coerced to 0 by the except branch). -/
inductive Cell where
  | num (v : ℚ)
  | na
  | strNum (v : ℚ)
  | strBad
  deriving DecidableEq

/-- One row of the DEMAND sheet: the item code from column 0 (the code
always passes it through `str`, lines 121/143/193/222, so it is modelled
as a string), the untouched auxiliary column 1, and the period cells of
columns 2 onward. -/
structure Row where
  item : String
  label : Cell
  periods : List Cell
  deriving DecidableEq

/-- Python exceptions the modelled core can raise.  `nameError` is the
NameError of line 139: `items_to_keep_original` is assigned only inside
the `if material_qty_dict:` block (line 114), so with an empty supply
dictionary line 139 reads an unbound local.  `typeError` is the TypeError
of line 128/133: summing a row slice that contains a text cell (pandas
`Series.sum` adds the raw objects), or comparing an all-text concatenated
sum against a number. -/
inductive PyErr where
  | nameError
  | typeError
  deriving DecidableEq

/-- The cell coercion performed in the consolidation and rounding passes
(lines 160-167, 204-211): NaN becomes 0, otherwise `float(value)`; a
ValueError/TypeError from `float` yields 0. -/
def toNum : Cell → ℚ
  | .num v => v
  | .na => 0
  | .strNum v => v
  | .strBad => 0

/-- Lookup of `material_qty_dict[item]`, with `item in material_qty_dict`
modelled as the lookup succeeding (lines 124-125). -/
def lookupQty (supply : List (String × ℚ)) (item : String) : Option ℚ :=
  (supply.find? (fun p => p.1 == item)).map (fun p => p.2)

/-- The raw-total computation `original_df.iloc[row_idx, 2:].sum()` of
line 128.  pandas skips NaN entries (skipna default), but a text cell is
not coerced there: either the sum itself raises TypeError (number + str),
or, for an all-text row, the sum is a concatenated string and the `>`
comparison of line 133 raises TypeError.  Both outcomes are modelled as
`typeError`. -/
def rawSum : List Cell → Except PyErr ℚ
  | [] => .ok 0
  | Cell.num v :: cs => (rawSum cs).map (fun s => v + s)
  | Cell.na :: cs => rawSum cs
  | Cell.strNum _ :: _ => .error .typeError
  | Cell.strBad :: _ => .error .typeError

/-- Sum of the period cells under the try/except coercion (used to state
properties; `rawSum` returns exactly this value whenever it succeeds). -/
def sumNum (cs : List Cell) : ℚ := (cs.map toNum).sum

/-- Step 1 (lines 109-137): build `items_to_keep_original`, the list of
item codes whose raw total demand strictly exceeds the available quantity.
Rows whose item code is not a key of the dictionary are skipped without
their raw total ever being computed (the lookup guard of line 124 comes
first). -/
def itemsToKeepOriginal (supply : List (String × ℚ)) :
    List Row → Except PyErr (List String)
  | [] => .ok []
  | r :: rs =>
    match lookupQty supply r.item with
    | none => itemsToKeepOriginal supply rs
    | some q =>
      match rawSum r.periods with
      | .error e => .error e
      | .ok s =>
        match itemsToKeepOriginal supply rs with
        | .error e => .error e
        | .ok rest => if q < s then .ok (r.item :: rest) else .ok rest

/-- One iteration of the consolidation loop body (lines 153-189) at column
index `i` of the period cells: read the current cell through the coercion;
if its value `v` satisfies `0 < v < 30`, write `next + v` (next also
coerced) into position `i+1` and `0` into position `i`; otherwise leave
both cells untouched. -/
def consolidateAt : List Cell → Nat → List Cell
  | [], _ => []
  | [c], _ => [c]
  | c :: d :: rest, 0 =>
    if 0 < toNum c ∧ toNum c < 30 then
      Cell.num 0 :: Cell.num (toNum d + toNum c) :: rest
    else
      c :: d :: rest
  | c :: rest, i + 1 => c :: consolidateAt rest i

/-- Step 2 for one row (lines 153-189): `for col_idx in
range(len(numeric_cols) - 1)`, mutating the row in place, so each
iteration sees the writes of the previous ones. -/
def consolidateLoop (cells : List Cell) : List Cell :=
  (List.range (cells.length - 1)).foldl consolidateAt cells

/-- Rounding of one value (line 214): `int(np.ceil(val / 10.0)) * 10`. -/
def ceil10 (v : ℚ) : ℚ := ((⌈v / 10⌉ : ℤ) : ℚ) * 10

/-- Step 3 for one cell (lines 200-218): cells whose coerced value is
positive are overwritten with the rounded value; all other cells are not
written at all (so a NaN or text cell stays what it was). -/
def roundCell (c : Cell) : Cell :=
  if 0 < toNum c then Cell.num (ceil10 (toNum c)) else c

/-- Step 2 at row level (lines 142-151): the consolidation pass is skipped
for rows whose item code is in `items_to_keep_original`. -/
def consolidateRow (keep : List String) (r : Row) : Row :=
  if r.item ∈ keep then r
  else Row.mk r.item r.label (consolidateLoop r.periods)

/-- Step 3 at row level (lines 192-198): the rounding pass is skipped for
rows whose item code is in `items_to_keep_original`. -/
def roundRow (keep : List String) (r : Row) : Row :=
  if r.item ∈ keep then r
  else Row.mk r.item r.label (r.periods.map roundCell)

/-- Step 4 (lines 220-227): rows whose item code is in
`items_to_keep_original` get every column copied back from the original
DataFrame. -/
def restoreRow (keep : List String) (cur orig : Row) : Row :=
  if cur.item ∈ keep then orig else cur

/-- The normalization core of `process_demand_sheet` (lines 105-227),
from the point where the DEMAND DataFrame and the supply dictionary are
in memory to the point where the processed DataFrame is handed to the
output writer.  An empty supply dictionary (DATA sheet absent, required
columns absent, or no supply rows) makes the `if material_qty_dict:` block
of line 109 skip the assignment of `items_to_keep_original`, so line 139
raises NameError and the surrounding try/except makes the whole operation
fail. -/
def process_demand_sheet (supply : List (String × ℚ)) (table : List Row) :
    Except PyErr (List Row) :=
  match supply with
  | [] => .error .nameError
  | _ :: _ =>
    match itemsToKeepOriginal supply table with
    | .error e => .error e
    | .ok keep =>
      let step2 := table.map (consolidateRow keep)
      let step3 := step2.map (roundRow keep)
      let step4 := (step3.zip table).map (fun pr => restoreRow keep pr.1 pr.2)
      .ok step4

/-- The net effect of steps 2 and 3 on the period cells of a row that is
not in the keep list. -/
def normalizePeriods (cells : List Cell) : List Cell :=
  (consolidateLoop cells).map roundCell

/-- The net effect of the whole per-row processing on a row that is not in
the keep list. -/
def normalizeRow (r : Row) : Row :=
  Row.mk r.item r.label (normalizePeriods r.periods)

/-- Claim-side description of the consolidation pass (claim C4): a single
left-to-right pass over the current, mutating sequence; at each position
except the last, a value `v` with `0 < v < 30` is added to the next
position and replaced by 0; the value created at the next position is
itself re-evaluated when the scan reaches it (multi-step cascades); a
value of exactly 30 fails the strict test and is never consolidated; the
last position is never a source. -/
def consolidateCascade : List Cell → List Cell
  | [] => []
  | [c] => [c]
  | c :: d :: rest =>
    if 0 < toNum c ∧ toNum c < 30 then
      Cell.num 0 :: consolidateCascade (Cell.num (toNum d + toNum c) :: rest)
    else
      c :: consolidateCascade (d :: rest)
termination_by cs => cs.length
decreasing_by
  all_goals simp only [List.length_cons]
  all_goals omega

/-- Claim-side over-supply test for a single row, computed from the
original values: the row's item has a supply entry and the coerced sum of
its periods strictly exceeds it. -/
def rowOverSupply (supply : List (String × ℚ)) (r : Row) : Bool :=
  match lookupQty supply r.item with
  | some q => decide (q < sumNum r.periods)
  | none => false

/-- Claim-side preservation test for an item code: some row of the table
carrying this item code is over-supply. -/
def preservedItem (supply : List (String × ℚ)) (table : List Row)
    (x : String) : Bool :=
  table.any (fun r => r.item == x && rowOverSupply supply r)

/-- True for cells that are not text (pandas can sum them without a
TypeError). -/
def textFree : Cell → Bool
  | .strNum _ => false
  | .strBad => false
  | _ => true

/-- Default row used with `List.getD` in statements about individual
rows. -/
def dRow : Row := Row.mk "" Cell.na []

/-! Basic evaluation lemmas. -/

theorem toNum_num (v : ℚ) : toNum (Cell.num v) = v := rfl

theorem sumNum_nil : sumNum [] = 0 := rfl

theorem sumNum_cons (c : Cell) (cs : List Cell) :
    sumNum (c :: cs) = toNum c + sumNum cs := by
  simp [sumNum]

theorem ceil10_eval (v : ℚ) (z : ℤ) (h1 : (z : ℚ) - 1 < v / 10)
    (h2 : v / 10 ≤ (z : ℚ)) : ceil10 v = (z : ℚ) * 10 := by
  rw [ceil10, Int.ceil_eq_iff.mpr ⟨h1, h2⟩]

theorem ceil10_five : ceil10 5 = 10 := by
  rw [show (10:ℚ) = ((1:ℤ):ℚ) * 10 by norm_num]
  exact ceil10_eval 5 1 (by norm_num) (by norm_num)

theorem ceil10_fortyfive : ceil10 45 = 50 := by
  rw [show (50:ℚ) = ((5:ℤ):ℚ) * 10 by norm_num]
  exact ceil10_eval 45 5 (by norm_num) (by norm_num)

/-! Properties of the rounding step. -/

theorem le_ceil10 (v : ℚ) : v ≤ ceil10 v := by
  rw [ceil10]
  have h := Int.le_ceil (v / 10)
  rw [div_le_iff₀ (by norm_num : (0:ℚ) < 10)] at h
  exact h

theorem ceil10_lt_add_ten (v : ℚ) : ceil10 v < v + 10 := by
  rw [ceil10]
  have h := Int.ceil_lt_add_one (v / 10)
  have h2 : ((⌈v / 10⌉ : ℤ) : ℚ) * 10 < (v / 10 + 1) * 10 := by
    exact mul_lt_mul_of_pos_right h (by norm_num)
  calc ((⌈v / 10⌉ : ℤ) : ℚ) * 10 < (v / 10 + 1) * 10 := h2
    _ = v + 10 := by field_simp

theorem ceil10_mul_ten (v : ℚ) : ∃ k : ℤ, ceil10 v = 10 * k := by
  exact ⟨⌈v / 10⌉, by rw [ceil10]; ring⟩

theorem ceil10_of_mul_ten (k : ℤ) : ceil10 (10 * (k : ℚ)) = 10 * (k : ℚ) := by
  rw [ceil10]
  have h : (10 : ℚ) * (k : ℚ) / 10 = (k : ℚ) := by field_simp
  rw [h, Int.ceil_intCast]
  ring

theorem roundCell_pos (c : Cell) (h : 0 < toNum c) :
    roundCell c = Cell.num (ceil10 (toNum c)) := by
  rw [roundCell, if_pos h]

theorem roundCell_nonpos (c : Cell) (h : ¬ 0 < toNum c) : roundCell c = c := by
  rw [roundCell, if_neg h]

/-! The consolidation loop is the left-to-right cascade. -/

theorem consolidateAt_nil (i : Nat) : consolidateAt [] i = [] := by
  cases i <;> rfl

theorem consolidateAt_succ (x : Cell) (xs : List Cell) (i : Nat) :
    consolidateAt (x :: xs) (i + 1) = x :: consolidateAt xs i := by
  cases xs <;> rfl

theorem foldl_consolidateAt_map_succ (l : List Nat) :
    ∀ (x : Cell) (xs : List Cell),
      (l.map (fun i => i + 1)).foldl consolidateAt (x :: xs)
        = x :: l.foldl consolidateAt xs := by
  induction l with
  | nil => intro x xs; rfl
  | cons i l ih =>
    intro x xs
    simp only [List.map_cons, List.foldl_cons, consolidateAt_succ]
    exact ih x (consolidateAt xs i)

theorem consolidateLoop_nil : consolidateLoop [] = [] := rfl

theorem consolidateLoop_singleton (c : Cell) : consolidateLoop [c] = [c] := rfl

theorem foldl_consolidateAt_shift (l : List Nat) :
    ∀ (x : Cell) (xs : List Cell),
      l.foldl (fun s i => consolidateAt s (i + 1)) (x :: xs)
        = x :: l.foldl consolidateAt xs := by
  induction l with
  | nil => intro x xs; rfl
  | cons i l ih =>
    intro x xs
    simp only [List.foldl_cons, consolidateAt_succ]
    exact ih x (consolidateAt xs i)

theorem consolidateLoop_cons (c d : Cell) (rest : List Cell) :
    consolidateLoop (c :: d :: rest)
      = (List.range rest.length).foldl (fun s i => consolidateAt s (i + 1))
          (consolidateAt (c :: d :: rest) 0) := by
  rw [consolidateLoop]
  have hlen : (c :: d :: rest).length - 1 = rest.length + 1 := by simp
  rw [hlen, List.range_succ_eq_map, List.foldl_cons, List.foldl_map]

theorem consolidateAt_cons_pos (c d : Cell) (rest : List Cell)
    (h : 0 < toNum c ∧ toNum c < 30) :
    consolidateAt (c :: d :: rest) 0
      = Cell.num 0 :: Cell.num (toNum d + toNum c) :: rest := by
  rw [consolidateAt, if_pos h]

theorem consolidateAt_cons_neg (c d : Cell) (rest : List Cell)
    (h : ¬ (0 < toNum c ∧ toNum c < 30)) :
    consolidateAt (c :: d :: rest) 0 = c :: d :: rest := by
  rw [consolidateAt, if_neg h]

theorem consolidateCascade_nil : consolidateCascade [] = [] := by
  rw [consolidateCascade]

theorem consolidateCascade_singleton (c : Cell) :
    consolidateCascade [c] = [c] := by
  rw [consolidateCascade]

theorem consolidateCascade_cons_pos (c d : Cell) (rest : List Cell)
    (h : 0 < toNum c ∧ toNum c < 30) :
    consolidateCascade (c :: d :: rest)
      = Cell.num 0 :: consolidateCascade (Cell.num (toNum d + toNum c) :: rest) := by
  rw [consolidateCascade, if_pos h]

theorem consolidateCascade_cons_neg (c d : Cell) (rest : List Cell)
    (h : ¬ (0 < toNum c ∧ toNum c < 30)) :
    consolidateCascade (c :: d :: rest) = c :: consolidateCascade (d :: rest) := by
  rw [consolidateCascade, if_neg h]

theorem consolidateLoop_eq_cascade (cells : List Cell) :
    consolidateLoop cells = consolidateCascade cells := by
  induction cells using consolidateCascade.induct with
  | case1 => rw [consolidateCascade_nil]; rfl
  | case2 c => rw [consolidateCascade_singleton]; rfl
  | case3 c d rest h ih =>
    rw [consolidateLoop_cons, consolidateAt_cons_pos c d rest h,
      foldl_consolidateAt_shift, consolidateCascade_cons_pos c d rest h, ← ih]
    rw [consolidateLoop]
    simp
  | case4 c d rest h ih =>
    rw [consolidateLoop_cons, consolidateAt_cons_neg c d rest h,
      foldl_consolidateAt_shift, consolidateCascade_cons_neg c d rest h, ← ih]
    rw [consolidateLoop]
    simp

/-! Invariants of the cascade. -/

theorem length_consolidateCascade (cells : List Cell) :
    (consolidateCascade cells).length = cells.length := by
  induction cells using consolidateCascade.induct with
  | case1 => rw [consolidateCascade_nil]
  | case2 c => rw [consolidateCascade_singleton]
  | case3 c d rest h ih =>
    rw [consolidateCascade_cons_pos c d rest h]
    simp only [List.length_cons, ih]
  | case4 c d rest h ih =>
    rw [consolidateCascade_cons_neg c d rest h]
    simp only [List.length_cons, ih]

theorem sumNum_consolidateCascade (cells : List Cell) :
    sumNum (consolidateCascade cells) = sumNum cells := by
  induction cells using consolidateCascade.induct with
  | case1 => rw [consolidateCascade_nil]
  | case2 c => rw [consolidateCascade_singleton]
  | case3 c d rest h ih =>
    rw [consolidateCascade_cons_pos c d rest h]
    rw [sumNum_cons, ih, sumNum_cons, sumNum_cons, sumNum_cons, toNum_num, toNum_num]
    ring
  | case4 c d rest h ih =>
    rw [consolidateCascade_cons_neg c d rest h]
    rw [sumNum_cons, ih, sumNum_cons, sumNum_cons, sumNum_cons]

theorem consolidateCascade_nonlast_ge (cells : List Cell) :
    ∀ j : Nat, j + 1 < (consolidateCascade cells).length →
      0 < toNum ((consolidateCascade cells).getD j Cell.na) →
      30 ≤ toNum ((consolidateCascade cells).getD j Cell.na) := by
  induction cells using consolidateCascade.induct with
  | case1 =>
    intro j hj
    rw [consolidateCascade_nil] at hj
    simp at hj
  | case2 c =>
    intro j hj
    rw [consolidateCascade_singleton] at hj
    simp at hj
  | case3 c d rest h ih =>
    intro j hj hpos
    rw [consolidateCascade_cons_pos c d rest h] at hj hpos ⊢
    match j with
    | 0 =>
      simp only [List.getD_cons_zero, toNum_num] at hpos
      exact absurd hpos (by norm_num)
    | j + 1 =>
      simp only [List.getD_cons_succ] at hpos ⊢
      simp only [List.length_cons] at hj
      exact ih j (by omega) hpos
  | case4 c d rest h ih =>
    intro j hj hpos
    rw [consolidateCascade_cons_neg c d rest h] at hj hpos ⊢
    match j with
    | 0 =>
      simp only [List.getD_cons_zero] at hpos ⊢
      rcases not_and_or.mp h with h1 | h2
      · exact absurd hpos h1
      · exact not_lt.mp h2
    | j + 1 =>
      simp only [List.getD_cons_succ] at hpos ⊢
      simp only [List.length_cons] at hj
      exact ih j (by omega) hpos

/-! Properties of the raw-total computation. -/

theorem rawSum_ok_eq (cs : List Cell) :
    ∀ s : ℚ, rawSum cs = .ok s → s = sumNum cs := by
  induction cs with
  | nil =>
    intro s h
    rw [rawSum] at h
    cases h
    rfl
  | cons c cs ih =>
    intro s h
    match c with
    | Cell.num v =>
      rw [rawSum] at h
      cases hr : rawSum cs with
      | error e => rw [hr] at h; cases h
      | ok s0 =>
        rw [hr] at h
        cases h
        rw [sumNum_cons, toNum_num, ih s0 hr]
    | Cell.na =>
      rw [rawSum] at h
      rw [sumNum_cons, show toNum Cell.na = 0 from rfl, zero_add]
      exact ih s h
    | Cell.strNum v => rw [rawSum] at h; cases h
    | Cell.strBad => rw [rawSum] at h; cases h

theorem rawSum_ok_iff (cs : List Cell) :
    (∃ s, rawSum cs = .ok s) ↔ ∀ c ∈ cs, textFree c = true := by
  induction cs with
  | nil =>
    constructor
    · intro _ c hc
      cases hc
    · intro _
      exact ⟨0, rfl⟩
  | cons c cs ih =>
    constructor
    · intro ⟨s, hs⟩ c2 hc2
      match c with
      | Cell.num v =>
        rw [rawSum] at hs
        cases hr : rawSum cs with
        | error e => rw [hr] at hs; cases hs
        | ok s0 =>
          rcases List.mem_cons.mp hc2 with h2 | h2
          · rw [h2]; rfl
          · exact ih.mp ⟨s0, hr⟩ c2 h2
      | Cell.na =>
        rw [rawSum] at hs
        rcases List.mem_cons.mp hc2 with h2 | h2
        · rw [h2]; rfl
        · exact ih.mp ⟨s, hs⟩ c2 h2
      | Cell.strNum v => rw [rawSum] at hs; cases hs
      | Cell.strBad => rw [rawSum] at hs; cases hs
    · intro hall
      have hc : textFree c = true := hall c (List.mem_cons_self c cs)
      have hcs : ∀ c2 ∈ cs, textFree c2 = true :=
        fun c2 h2 => hall c2 (List.mem_cons_of_mem c h2)
      obtain ⟨s0, hs0⟩ := ih.mpr hcs
      match c with
      | Cell.num v =>
        refine ⟨v + s0, ?_⟩
        rw [rawSum, hs0]
        rfl
      | Cell.na =>
        refine ⟨s0, ?_⟩
        rw [rawSum, hs0]
      | Cell.strNum v => cases hc
      | Cell.strBad => cases hc

/-! Properties of the decision list: membership in `items_to_keep_original`
is exactly the claim-side per-item over-supply test. -/

theorem mem_itemsToKeepOriginal (supply : List (String × ℚ)) (table : List Row) :
    ∀ keep : List String, itemsToKeepOriginal supply table = .ok keep →
      ∀ x : String, (x ∈ keep ↔ preservedItem supply table x = true) := by
  induction table with
  | nil =>
    intro keep h x
    rw [itemsToKeepOriginal] at h
    cases h
    simp [preservedItem]
  | cons r rs ih =>
    intro keep h x
    rw [itemsToKeepOriginal] at h
    rw [preservedItem, List.any_cons]
    cases hl : lookupQty supply r.item with
    | none =>
      simp only [hl] at h
      have hover : rowOverSupply supply r = false := by
        rw [rowOverSupply, hl]
      rw [hover]
      simp only [Bool.and_false, Bool.false_or]
      exact ih keep h x
    | some q =>
      simp only [hl] at h
      cases hs : rawSum r.periods with
      | error e => simp only [hs] at h; cases h
      | ok s =>
        simp only [hs] at h
        cases hk : itemsToKeepOriginal supply rs with
        | error e => simp only [hk] at h; cases h
        | ok rest =>
          simp only [hk] at h
          have hover : rowOverSupply supply r = decide (q < sumNum r.periods) := by
            rw [rowOverSupply, hl]
          have hsum : s = sumNum r.periods := rawSum_ok_eq r.periods s hs
          by_cases hqs : q < s
          · rw [if_pos hqs] at h
            cases h
            rw [hover]
            have hdec : decide (q < sumNum r.periods) = true := by
              rw [← hsum]; exact decide_eq_true hqs
            rw [hdec]
            simp only [Bool.and_true, List.mem_cons, Bool.or_eq_true, beq_iff_eq]
            constructor
            · intro h2
              rcases h2 with h2 | h2
              · left; exact h2.symm
              · right; exact ((ih rest hk x).mp h2)
            · intro h2
              rcases h2 with h2 | h2
              · left; exact h2.symm
              · right; exact (ih rest hk x).mpr h2
          · rw [if_neg hqs] at h
            cases h
            rw [hover]
            have hdec : decide (q < sumNum r.periods) = false := by
              rw [← hsum]; exact decide_eq_false hqs
            rw [hdec]
            simp only [Bool.and_false, Bool.false_or]
            exact ih _ hk x

theorem itemsToKeepOriginal_ok_iff (supply : List (String × ℚ))
    (table : List Row) :
    (∃ keep, itemsToKeepOriginal supply table = .ok keep) ↔
      ∀ r ∈ table, lookupQty supply r.item = none
        ∨ ∀ c ∈ r.periods, textFree c = true := by
  induction table with
  | nil =>
    constructor
    · intro _ r hr
      cases hr
    · intro _
      exact ⟨[], rfl⟩
  | cons r rs ih =>
    constructor
    · intro ⟨keep, h⟩ r2 hr2
      rw [itemsToKeepOriginal] at h
      cases hl : lookupQty supply r.item with
      | none =>
        simp only [hl] at h
        rcases List.mem_cons.mp hr2 with h2 | h2
        · left; rw [h2]; exact hl
        · exact ih.mp ⟨keep, h⟩ r2 h2
      | some q =>
        simp only [hl] at h
        cases hs : rawSum r.periods with
        | error e => simp only [hs] at h; cases h
        | ok s =>
          simp only [hs] at h
          cases hk : itemsToKeepOriginal supply rs with
          | error e => simp only [hk] at h; cases h
          | ok rest =>
            rcases List.mem_cons.mp hr2 with h2 | h2
            · right; rw [h2]; exact (rawSum_ok_iff r.periods).mp ⟨s, hs⟩
            · exact ih.mp ⟨rest, hk⟩ r2 h2
    · intro hall
      have hr : lookupQty supply r.item = none
          ∨ ∀ c ∈ r.periods, textFree c = true :=
        hall r (List.mem_cons_self r rs)
      have hrs : ∀ r2 ∈ rs, lookupQty supply r2.item = none
          ∨ ∀ c ∈ r2.periods, textFree c = true :=
        fun r2 h2 => hall r2 (List.mem_cons_of_mem r h2)
      obtain ⟨rest, hrest⟩ := ih.mpr hrs
      rw [itemsToKeepOriginal]
      cases hl : lookupQty supply r.item with
      | none => exact ⟨rest, hrest⟩
      | some q =>
        have htf : ∀ c ∈ r.periods, textFree c = true := by
          rcases hr with h2 | h2
          · rw [hl] at h2; cases h2
          · exact h2
        obtain ⟨s, hs⟩ := (rawSum_ok_iff r.periods).mpr htf
        by_cases hqs : q < s
        · exact ⟨r.item :: rest, by simp only [hs, hrest]; rw [if_pos hqs]⟩
        · exact ⟨rest, by simp only [hs, hrest]; rw [if_neg hqs]⟩

/-! Characterization of a successful run of the core. -/

theorem row_passes_eq (keep : List String) (P : String → Bool)
    (hPK : ∀ x, x ∈ keep ↔ P x = true) (r : Row) :
    restoreRow keep (roundRow keep (consolidateRow keep r)) r
      = if P r.item then r else normalizeRow r := by
  by_cases hr : r.item ∈ keep
  · have hp : P r.item = true := (hPK r.item).mp hr
    rw [consolidateRow, if_pos hr, roundRow, if_pos hr, restoreRow, if_pos hr,
      if_pos hp]
  · have hp : P r.item = false := by
      cases hx : P r.item with
      | true => exact absurd ((hPK r.item).mpr hx) hr
      | false => rfl
    rw [consolidateRow, if_neg hr, roundRow]
    rw [show (Row.mk r.item r.label (consolidateLoop r.periods)).item = r.item
      from rfl]
    rw [if_neg hr, restoreRow]
    rw [show (Row.mk r.item r.label
      ((Row.mk r.item r.label (consolidateLoop r.periods)).periods.map
        roundCell)).item = r.item from rfl]
    rw [if_neg hr, hp, if_neg (by simp)]
    rfl

theorem zip_map_restore (keep : List String) (P : String → Bool)
    (hPK : ∀ x, x ∈ keep ↔ P x = true) :
    ∀ l : List Row,
      (((l.map (consolidateRow keep)).map (roundRow keep)).zip l).map
          (fun pr => restoreRow keep pr.1 pr.2)
        = l.map (fun r => if P r.item then r else normalizeRow r) := by
  intro l
  induction l with
  | nil => rfl
  | cons r rs ih =>
    simp only [List.map_cons, List.zip_cons_cons]
    rw [ih, row_passes_eq keep P hPK r]

theorem process_ok_char (supply : List (String × ℚ)) (table out : List Row)
    (h : process_demand_sheet supply table = .ok out) :
    out = table.map
      (fun r => if preservedItem supply table r.item then r
        else normalizeRow r) := by
  match supply with
  | [] =>
    rw [process_demand_sheet] at h
    cases h
  | p :: ps =>
    rw [process_demand_sheet] at h
    cases hk : itemsToKeepOriginal (p :: ps) table with
    | error e => simp only [hk] at h; cases h
    | ok keep =>
      simp only [hk] at h
      cases h
      exact zip_map_restore keep (preservedItem (p :: ps) table)
        (fun x => mem_itemsToKeepOriginal (p :: ps) table keep hk x) table

theorem getD_map_of_lt {α β : Type} (f : α → β) (l : List α) (i : Nat)
    (hi : i < l.length) (d : α) (d2 : β) :
    (l.map f).getD i d2 = f (l.getD i d) := by
  rw [List.getD_eq_getElem?_getD, List.getD_eq_getElem?_getD,
    List.getElem?_map, List.getElem?_eq_getElem hi]
  rfl

theorem getD_mem_of_lt {α : Type} (l : List α) (i : Nat)
    (hi : i < l.length) (d : α) : l.getD i d ∈ l := by
  rw [List.getD_eq_getElem?_getD, List.getElem?_eq_getElem hi]
  exact List.getElem_mem hi

theorem process_ok_row (supply : List (String × ℚ)) (table out : List Row)
    (i : Nat) (h : process_demand_sheet supply table = .ok out)
    (hi : i < table.length) :
    out.getD i dRow
      = (if preservedItem supply table ((table.getD i dRow).item) then
          table.getD i dRow
        else normalizeRow (table.getD i dRow)) := by
  rw [process_ok_char supply table out h, getD_map_of_lt _ table i hi dRow dRow]

/-! Invariants of the combined consolidate-then-round transformation. -/

theorem normalizePeriods_mult10 (cells : List Cell) :
    ∀ c ∈ normalizePeriods cells, 0 < toNum c → ∃ k : ℤ, toNum c = 10 * k := by
  intro c hc hpos
  rw [normalizePeriods] at hc
  obtain ⟨c0, hc0, hceq⟩ := List.mem_map.mp hc
  by_cases h0 : 0 < toNum c0
  · rw [← hceq, roundCell_pos c0 h0, toNum_num]
    exact ceil10_mul_ten (toNum c0)
  · rw [← hceq, roundCell_nonpos c0 h0] at hpos
    exact absurd hpos h0

theorem length_normalizePeriods (cells : List Cell) :
    (normalizePeriods cells).length = cells.length := by
  rw [normalizePeriods, consolidateLoop_eq_cascade, List.length_map,
    length_consolidateCascade]

theorem normalizePeriods_nonlast_ge (cells : List Cell) :
    ∀ j : Nat, j + 1 < (normalizePeriods cells).length →
      0 < toNum ((normalizePeriods cells).getD j Cell.na) →
      30 ≤ toNum ((normalizePeriods cells).getD j Cell.na) := by
  intro j hj hpos
  rw [normalizePeriods, consolidateLoop_eq_cascade] at hj hpos ⊢
  have hjL : j + 1 < (consolidateCascade cells).length := by
    rw [List.length_map] at hj
    exact hj
  have hget : ((consolidateCascade cells).map roundCell).getD j Cell.na
      = roundCell ((consolidateCascade cells).getD j Cell.na) :=
    getD_map_of_lt roundCell (consolidateCascade cells) j (by omega) Cell.na
      Cell.na
  rw [hget] at hpos ⊢
  by_cases h0 : 0 < toNum ((consolidateCascade cells).getD j Cell.na)
  · have h30 : 30 ≤ toNum ((consolidateCascade cells).getD j Cell.na) :=
      consolidateCascade_nonlast_ge cells j hjL h0
    rw [roundCell_pos _ h0, toNum_num]
    exact le_trans h30 (le_ceil10 _)
  · rw [roundCell_nonpos _ h0] at hpos
    exact absurd hpos h0

/-! The claims. -/

/-- C1 (code bug): the spec says an empty SupplyIndex is non-fatal and
every row still gets normalized, and the code itself prints that the
quantity-constraint check "will be skipped"; but with an empty supply
dictionary the code never assigns `items_to_keep_original` (line 114 sits
inside `if material_qty_dict:`), so line 139 raises NameError and the whole
operation aborts for every input table. -/
theorem C1_empty_supply_raises_nameError (table : List Row) :
    process_demand_sheet [] table = .error PyErr.nameError := rfl

/-- C2 counterexample: preservation is decided per item code, not per row.
With supply entry X ↦ 50 and two rows both carrying item X, the first with
periods [100] (over supply) and the second with periods [5] (not over
supply on its own), the second row is nevertheless output verbatim ([5]),
although its own raw total does not exceed 50 and its normalized form
would be [10].  This refutes the claimed per-row "if and only if". -/
theorem C2_per_row_iff_counterexample :
    process_demand_sheet [("X", 50)]
        [Row.mk "X" Cell.na [Cell.num 100], Row.mk "X" Cell.na [Cell.num 5]]
      = .ok [Row.mk "X" Cell.na [Cell.num 100],
          Row.mk "X" Cell.na [Cell.num 5]]
    ∧ ¬ (50 < sumNum [Cell.num 5])
    ∧ normalizePeriods [Cell.num 5] ≠ [Cell.num 5] := by
  refine ⟨?_, ?_, ?_⟩
  · norm_num +decide [process_demand_sheet, itemsToKeepOriginal, lookupQty,
      consolidateRow, roundRow, restoreRow, consolidateLoop, consolidateAt,
      roundCell, toNum, rawSum, Except.map, List.range_succ]
  · norm_num [sumNum, toNum]
  · norm_num [normalizePeriods, consolidateLoop, roundCell, toNum,
      ceil10_five, Cell.num.injEq]

/-- C2 (amended): a row of the output equals its input row when its item
code is preserved and its normalized form otherwise, where an item code is
preserved iff SOME row of the table carrying that item code has a supply
entry and a raw total (computed from the original, unmodified values)
strictly exceeding it.  For tables whose item codes are pairwise distinct
this coincides with the claimed per-row rule. -/
theorem C2_preservation_per_item (supply : List (String × ℚ))
    (table out : List Row) (i : Nat)
    (h : process_demand_sheet supply table = Except.ok out)
    (hi : i < table.length) :
    (out.getD i dRow).item = (table.getD i dRow).item ∧
    (out.getD i dRow).periods =
      (if preservedItem supply table ((table.getD i dRow).item) then
        (table.getD i dRow).periods
      else normalizePeriods ((table.getD i dRow).periods)) := by
  rw [process_ok_row supply table out i h hi]
  by_cases hp : preservedItem supply table ((table.getD i dRow).item) = true
  · rw [hp, if_pos rfl, if_pos rfl]
    exact ⟨rfl, rfl⟩
  · have hp2 : preservedItem supply table ((table.getD i dRow).item) = false := by
      cases hx : preservedItem supply table ((table.getD i dRow).item) with
      | true => exact absurd hx hp
      | false => rfl
    rw [hp2, if_neg (by simp), if_neg (by simp)]
    exact ⟨rfl, rfl⟩

theorem C2_preservation_per_item_witness :
    process_demand_sheet [("X", 50)]
        [Row.mk "X" Cell.na [Cell.num 100], Row.mk "X" Cell.na [Cell.num 5]]
      = Except.ok [Row.mk "X" Cell.na [Cell.num 100],
          Row.mk "X" Cell.na [Cell.num 5]]
    ∧ 1 < ([Row.mk "X" Cell.na [Cell.num 100],
        Row.mk "X" Cell.na [Cell.num 5]] : List Row).length
    ∧ ((([Row.mk "X" Cell.na [Cell.num 100],
          Row.mk "X" Cell.na [Cell.num 5]] : List Row).getD 1 dRow).item
        = (([Row.mk "X" Cell.na [Cell.num 100],
          Row.mk "X" Cell.na [Cell.num 5]] : List Row).getD 1 dRow).item
      ∧ (([Row.mk "X" Cell.na [Cell.num 100],
          Row.mk "X" Cell.na [Cell.num 5]] : List Row).getD 1 dRow).periods
        = (if preservedItem [("X", 50)]
              [Row.mk "X" Cell.na [Cell.num 100], Row.mk "X" Cell.na [Cell.num 5]]
              ((([Row.mk "X" Cell.na [Cell.num 100],
                Row.mk "X" Cell.na [Cell.num 5]] : List Row).getD 1 dRow).item)
          then (([Row.mk "X" Cell.na [Cell.num 100],
              Row.mk "X" Cell.na [Cell.num 5]] : List Row).getD 1 dRow).periods
          else normalizePeriods ((([Row.mk "X" Cell.na [Cell.num 100],
              Row.mk "X" Cell.na [Cell.num 5]] : List Row).getD 1 dRow).periods))) := by
  have hok : process_demand_sheet [("X", 50)]
      [Row.mk "X" Cell.na [Cell.num 100], Row.mk "X" Cell.na [Cell.num 5]]
      = Except.ok [Row.mk "X" Cell.na [Cell.num 100],
          Row.mk "X" Cell.na [Cell.num 5]] := by
    norm_num +decide [process_demand_sheet, itemsToKeepOriginal, lookupQty,
      consolidateRow, roundRow, restoreRow, consolidateLoop, consolidateAt,
      roundCell, toNum, rawSum, Except.map, List.range_succ]
  have hlen : 1 < ([Row.mk "X" Cell.na [Cell.num 100],
      Row.mk "X" Cell.na [Cell.num 5]] : List Row).length := by norm_num
  exact ⟨hok, hlen, C2_preservation_per_item [("X", 50)]
    [Row.mk "X" Cell.na [Cell.num 100], Row.mk "X" Cell.na [Cell.num 5]]
    [Row.mk "X" Cell.na [Cell.num 100], Row.mk "X" Cell.na [Cell.num 5]]
    1 hok hlen⟩

/-- C3 counterexample: the scan of a non-preserved row [5, 0, 40]
cascades.  Position 0 moves its 5 into position 1 (giving [0, 5, 40]);
when the scan then reaches position 1, the freshly created 5 is itself
below 30 and moves into position 2 (giving [0, 0, 45]); rounding yields
[0, 0, 50], not the [0, 10, 40] the claim states. -/
theorem C3_scenario1_counterexample :
    process_demand_sheet [("Y", 100)]
        [Row.mk "X" Cell.na [Cell.num 5, Cell.num 0, Cell.num 40]]
      = .ok [Row.mk "X" Cell.na [Cell.num 0, Cell.num 0, Cell.num 50]]
    ∧ ([Cell.num 0, Cell.num 0, Cell.num 50] : List Cell)
        ≠ [Cell.num 0, Cell.num 10, Cell.num 40] := by
  constructor
  · norm_num +decide [process_demand_sheet, itemsToKeepOriginal, lookupQty,
      consolidateRow, roundRow, restoreRow, consolidateLoop, consolidateAt,
      roundCell, toNum, rawSum, Except.map, List.range_succ, ceil10_fortyfive]
  · norm_num [Cell.num.injEq]

/-- C3 (amended): for the row [5, 0, 40] with no supply entry for its item
(and a nonempty supply index, since an empty one aborts the run),
consolidation yields [0, 0, 45] (the 5 moved into position 1 cascades on
into position 2) and rounding yields [0, 0, 50], which is the row's output. -/
theorem C3_scenario1_amended :
    consolidateLoop [Cell.num 5, Cell.num 0, Cell.num 40]
      = [Cell.num 0, Cell.num 0, Cell.num 45]
    ∧ normalizePeriods [Cell.num 5, Cell.num 0, Cell.num 40]
      = [Cell.num 0, Cell.num 0, Cell.num 50]
    ∧ process_demand_sheet [("Y", 100)]
        [Row.mk "X" Cell.na [Cell.num 5, Cell.num 0, Cell.num 40]]
      = .ok [Row.mk "X" Cell.na [Cell.num 0, Cell.num 0, Cell.num 50]] := by
  refine ⟨?_, ?_, ?_⟩
  · norm_num +decide [consolidateLoop, consolidateAt, toNum, List.range_succ]
  · norm_num +decide [normalizePeriods, consolidateLoop, consolidateAt,
      roundCell, toNum, List.range_succ, ceil10_fortyfive]
  · norm_num +decide [process_demand_sheet, itemsToKeepOriginal, lookupQty,
      consolidateRow, roundRow, restoreRow, consolidateLoop, consolidateAt,
      roundCell, toNum, rawSum, Except.map, List.range_succ, ceil10_fortyfive]

/-- C4: the index-based in-place loop of lines 153-189 (modelled by
`consolidateLoop`) computes exactly the single left-to-right cascading
pass described by the claim (modelled by `consolidateCascade`): each
position but the last is tested once, in order, against the strict window
0 < v < 30 on the current (already mutated) contents; a value virtually
created at position i+1 is re-examined when the scan reaches i+1; a value
of exactly 30 is never moved; the last position is never a source. -/
theorem C4_consolidation_single_pass_cascade (cells : List Cell) :
    consolidateLoop cells = consolidateCascade cells :=
  consolidateLoop_eq_cascade cells

/-- C5: a row whose item has a supply entry and whose raw total demand
(coerced sum of the original periods) strictly exceeds it is output
verbatim: its output periods equal its input periods. -/
theorem C5_preservation_invariant (supply : List (String × ℚ))
    (table out : List Row) (i : Nat) (q : ℚ)
    (h : process_demand_sheet supply table = .ok out)
    (hi : i < table.length)
    (hq : lookupQty supply ((table.getD i dRow).item) = some q)
    (hgt : q < sumNum ((table.getD i dRow).periods)) :
    (out.getD i dRow).periods = (table.getD i dRow).periods := by
  rw [process_ok_row supply table out i h hi]
  have hp : preservedItem supply table ((table.getD i dRow).item) = true := by
    rw [preservedItem, List.any_eq_true]
    refine ⟨table.getD i dRow, getD_mem_of_lt table i hi dRow, ?_⟩
    rw [Bool.and_eq_true]
    constructor
    · exact beq_self_eq_true ((table.getD i dRow).item)
    · rw [rowOverSupply, hq]
      exact decide_eq_true hgt
  rw [hp, if_pos rfl]

theorem C5_preservation_invariant_witness :
    process_demand_sheet [("X", 50)]
        [Row.mk "X" Cell.na [Cell.num 30, Cell.num 40]]
      = Except.ok [Row.mk "X" Cell.na [Cell.num 30, Cell.num 40]]
    ∧ 0 < ([Row.mk "X" Cell.na [Cell.num 30, Cell.num 40]] : List Row).length
    ∧ lookupQty [("X", 50)]
        ((([Row.mk "X" Cell.na [Cell.num 30, Cell.num 40]] : List Row).getD
          0 dRow).item) = some 50
    ∧ 50 < sumNum ((([Row.mk "X" Cell.na [Cell.num 30, Cell.num 40]] :
        List Row).getD 0 dRow).periods)
    ∧ ((([Row.mk "X" Cell.na [Cell.num 30, Cell.num 40]] : List Row).getD
          0 dRow).periods
        = (([Row.mk "X" Cell.na [Cell.num 30, Cell.num 40]] : List Row).getD
          0 dRow).periods) := by
  have hok : process_demand_sheet [("X", 50)]
      [Row.mk "X" Cell.na [Cell.num 30, Cell.num 40]]
      = Except.ok [Row.mk "X" Cell.na [Cell.num 30, Cell.num 40]] := by
    norm_num +decide [process_demand_sheet, itemsToKeepOriginal, lookupQty,
      consolidateRow, roundRow, restoreRow, consolidateLoop, consolidateAt,
      roundCell, toNum, rawSum, Except.map, List.range_succ]
  have hlen : 0 < ([Row.mk "X" Cell.na [Cell.num 30, Cell.num 40]] :
      List Row).length := by norm_num
  have hq : lookupQty [("X", 50)]
      ((([Row.mk "X" Cell.na [Cell.num 30, Cell.num 40]] : List Row).getD
        0 dRow).item) = some 50 := by
    norm_num +decide [lookupQty]
  have hgt : 50 < sumNum ((([Row.mk "X" Cell.na [Cell.num 30, Cell.num 40]] :
      List Row).getD 0 dRow).periods) := by
    norm_num [sumNum, toNum]
  exact ⟨hok, hlen, hq, hgt, C5_preservation_invariant [("X", 50)]
    [Row.mk "X" Cell.na [Cell.num 30, Cell.num 40]]
    [Row.mk "X" Cell.na [Cell.num 30, Cell.num 40]] 0 50 hok hlen hq hgt⟩

/-- C6: on a row not in the keep list, the consolidation pass preserves
the coerced sum of the period values (each move replaces the pair (v, w)
by (0, w + v)). -/
theorem C6_consolidation_conserves_sum (keep : List String) (r : Row)
    (h : r.item ∉ keep) :
    sumNum ((consolidateRow keep r).periods) = sumNum r.periods := by
  rw [consolidateRow, if_neg h]
  rw [show (Row.mk r.item r.label (consolidateLoop r.periods)).periods
    = consolidateLoop r.periods from rfl]
  rw [consolidateLoop_eq_cascade]
  exact sumNum_consolidateCascade r.periods

theorem C6_consolidation_conserves_sum_witness :
    (Row.mk "A" Cell.na [Cell.num 5, Cell.num 40]).item ∉ ([] : List String)
    ∧ sumNum ((consolidateRow []
        (Row.mk "A" Cell.na [Cell.num 5, Cell.num 40])).periods)
      = sumNum (Row.mk "A" Cell.na [Cell.num 5, Cell.num 40]).periods := by
  have h : (Row.mk "A" Cell.na [Cell.num 5, Cell.num 40]).item
      ∉ ([] : List String) := by simp
  exact ⟨h, C6_consolidation_conserves_sum []
    (Row.mk "A" Cell.na [Cell.num 5, Cell.num 40]) h⟩

/-- C7: the rounding step replaces every cell of positive coerced value v
by the number ceil(v / 10) * 10, which is at least v and less than v + 10;
cells of zero or negative coerced value are left exactly as they were. -/
theorem C7_rounding_formula_and_bounds (c : Cell) :
    (0 < toNum c →
      roundCell c = Cell.num (ceil10 (toNum c))
      ∧ toNum c ≤ ceil10 (toNum c)
      ∧ ceil10 (toNum c) < toNum c + 10)
    ∧ (toNum c ≤ 0 → roundCell c = c) := by
  constructor
  · intro h
    exact ⟨roundCell_pos c h, le_ceil10 (toNum c), ceil10_lt_add_ten (toNum c)⟩
  · intro h
    exact roundCell_nonpos c (not_lt.mpr h)

theorem C7_rounding_formula_and_bounds_witness :
    0 < toNum (Cell.num 7)
    ∧ (roundCell (Cell.num 7) = Cell.num (ceil10 (toNum (Cell.num 7)))
      ∧ toNum (Cell.num 7) ≤ ceil10 (toNum (Cell.num 7))
      ∧ ceil10 (toNum (Cell.num 7)) < toNum (Cell.num 7) + 10) := by
  have h : 0 < toNum (Cell.num 7) := by norm_num [toNum]
  exact ⟨h, (C7_rounding_formula_and_bounds (Cell.num 7)).1 h⟩

/-- C8: rounding a positive value that is already a multiple of 10 leaves
it unchanged, so rounding is idempotent on its own outputs. -/
theorem C8_rounding_idempotent_on_multiples (v : ℚ) (k : ℤ)
    (h0 : 0 < v) (hk : v = 10 * (k : ℚ)) :
    roundCell (Cell.num v) = Cell.num v := by
  rw [roundCell, if_pos (show 0 < toNum (Cell.num v) from by
    rw [toNum_num]; exact h0)]
  rw [toNum_num, hk, ceil10_of_mul_ten]

theorem C8_rounding_idempotent_on_multiples_witness :
    0 < (30 : ℚ) ∧ (30 : ℚ) = 10 * ((3 : ℤ) : ℚ)
    ∧ roundCell (Cell.num 30) = Cell.num 30 :=
  ⟨by norm_num, by norm_num,
    C8_rounding_idempotent_on_multiples 30 3 (by norm_num) (by norm_num)⟩

/-- C9 counterexample: a non-numeric period cell is NOT coerced to 0 in
the raw-total decision step.  For a row whose item has a supply entry,
line 128 sums the raw row slice; a text cell makes that sum (or the
subsequent comparison) raise TypeError, so the whole operation fails
instead of continuing with the cell treated as 0. -/
theorem C9_nonNumeric_decision_counterexample :
    process_demand_sheet [("X", 50)] [Row.mk "X" Cell.na [Cell.strBad]]
      = .error PyErr.typeError := rfl

/-- C9 (amended): the run succeeds exactly when the supply index is
nonempty (else line 139 raises NameError) and every row whose item has a
supply entry is free of text cells (else line 128 raises TypeError).
Within the consolidation and rounding passes themselves, missing and
non-numeric cells are indeed coerced to 0 and never surface as errors, so
rows without a supply entry never fail. -/
theorem C9_error_characterization (supply : List (String × ℚ))
    (table : List Row) :
    (∃ out, process_demand_sheet supply table = .ok out) ↔
      (supply ≠ [] ∧ ∀ r ∈ table, lookupQty supply r.item = none
        ∨ ∀ c ∈ r.periods, textFree c = true) := by
  match supply with
  | [] =>
    constructor
    · intro ⟨out, h⟩
      rw [process_demand_sheet] at h
      cases h
    · intro ⟨h, _⟩
      exact absurd rfl h
  | p :: ps =>
    constructor
    · intro ⟨out, h⟩
      refine ⟨by simp, ?_⟩
      rw [process_demand_sheet] at h
      cases hk : itemsToKeepOriginal (p :: ps) table with
      | error e => simp only [hk] at h; cases h
      | ok keep =>
        exact (itemsToKeepOriginal_ok_iff (p :: ps) table).mp ⟨keep, hk⟩
    · intro ⟨_, hall⟩
      obtain ⟨keep, hk⟩ := (itemsToKeepOriginal_ok_iff (p :: ps) table).mpr hall
      refine ⟨(((table.map (consolidateRow keep)).map (roundRow keep)).zip
        table).map (fun pr => restoreRow keep pr.1 pr.2), ?_⟩
      rw [process_demand_sheet]
      simp only [hk]

theorem C9_error_characterization_witness :
    (∃ out, process_demand_sheet [("X", 50)]
        [Row.mk "X" Cell.na [Cell.num 1]] = .ok out) ↔
      (([("X", 50)] : List (String × ℚ)) ≠ []
        ∧ ∀ r ∈ [Row.mk "X" Cell.na [Cell.num 1]],
          lookupQty [("X", 50)] r.item = none
          ∨ ∀ c ∈ r.periods, textFree c = true) :=
  C9_error_characterization [("X", 50)] [Row.mk "X" Cell.na [Cell.num 1]]

/-- C10: every non-preserved output row has only multiples of 10 among its
positive period values, and in every period column except the last a
positive value is at least 30. -/
theorem C10_output_invariants (supply : List (String × ℚ))
    (table out : List Row) (i : Nat)
    (h : process_demand_sheet supply table = .ok out)
    (hi : i < table.length)
    (hnp : preservedItem supply table ((table.getD i dRow).item) = false) :
    (∀ c ∈ (out.getD i dRow).periods, 0 < toNum c → ∃ k : ℤ, toNum c = 10 * k)
    ∧ (∀ j : Nat, j + 1 < (out.getD i dRow).periods.length →
        0 < toNum ((out.getD i dRow).periods.getD j Cell.na) →
        30 ≤ toNum ((out.getD i dRow).periods.getD j Cell.na)) := by
  rw [process_ok_row supply table out i h hi, hnp, if_neg (by simp)]
  rw [show (normalizeRow (table.getD i dRow)).periods
    = normalizePeriods ((table.getD i dRow).periods) from rfl]
  exact ⟨normalizePeriods_mult10 ((table.getD i dRow).periods),
    normalizePeriods_nonlast_ge ((table.getD i dRow).periods)⟩

theorem C10_output_invariants_witness :
    process_demand_sheet [("Y", 100)]
        [Row.mk "X" Cell.na [Cell.num 5, Cell.num 0, Cell.num 40]]
      = Except.ok [Row.mk "X" Cell.na [Cell.num 0, Cell.num 0, Cell.num 50]]
    ∧ 0 < ([Row.mk "X" Cell.na [Cell.num 5, Cell.num 0, Cell.num 40]] :
        List Row).length
    ∧ preservedItem [("Y", 100)]
        [Row.mk "X" Cell.na [Cell.num 5, Cell.num 0, Cell.num 40]]
        ((([Row.mk "X" Cell.na [Cell.num 5, Cell.num 0, Cell.num 40]] :
          List Row).getD 0 dRow).item) = false
    ∧ ((∀ c ∈ (([Row.mk "X" Cell.na [Cell.num 0, Cell.num 0, Cell.num 50]] :
          List Row).getD 0 dRow).periods,
          0 < toNum c → ∃ k : ℤ, toNum c = 10 * k)
      ∧ (∀ j : Nat, j + 1 < (([Row.mk "X" Cell.na
            [Cell.num 0, Cell.num 0, Cell.num 50]] : List Row).getD
            0 dRow).periods.length →
          0 < toNum ((([Row.mk "X" Cell.na
            [Cell.num 0, Cell.num 0, Cell.num 50]] : List Row).getD
            0 dRow).periods.getD j Cell.na) →
          30 ≤ toNum ((([Row.mk "X" Cell.na
            [Cell.num 0, Cell.num 0, Cell.num 50]] : List Row).getD
            0 dRow).periods.getD j Cell.na))) := by
  have hok : process_demand_sheet [("Y", 100)]
      [Row.mk "X" Cell.na [Cell.num 5, Cell.num 0, Cell.num 40]]
      = Except.ok [Row.mk "X" Cell.na [Cell.num 0, Cell.num 0, Cell.num 50]] := by
    norm_num +decide [process_demand_sheet, itemsToKeepOriginal, lookupQty,
      consolidateRow, roundRow, restoreRow, consolidateLoop, consolidateAt,
      roundCell, toNum, rawSum, Except.map, List.range_succ, ceil10_fortyfive]
  have hlen : 0 < ([Row.mk "X" Cell.na [Cell.num 5, Cell.num 0, Cell.num 40]] :
      List Row).length := by norm_num
  have hnp : preservedItem [("Y", 100)]
      [Row.mk "X" Cell.na [Cell.num 5, Cell.num 0, Cell.num 40]]
      ((([Row.mk "X" Cell.na [Cell.num 5, Cell.num 0, Cell.num 40]] :
        List Row).getD 0 dRow).item) = false := by
    norm_num +decide [preservedItem, rowOverSupply, lookupQty]
  exact ⟨hok, hlen, hnp, C10_output_invariants [("Y", 100)]
    [Row.mk "X" Cell.na [Cell.num 5, Cell.num 0, Cell.num 40]]
    [Row.mk "X" Cell.na [Cell.num 0, Cell.num 0, Cell.num 50]]
    0 hok hlen hnp⟩

end DemandNorm
